import Mathlib

/-!
Verification of the CosmWasm time-locked escrow contract.

The repository ships the contract (module layout in
src/my_cosmo_wasm/src/lib.rs: contract, error, msg, state) together with a
property-test harness (src/cosmwasm/src/property_tests.rs) that drives the
contract and a cw20 token ledger through deposit/redeem sequences.  The
contract modules themselves are not present under src/, so the state
machine below is modelled from the specification (spec.md §3–§7) and
checked against the observable behaviour asserted by the property test.

Addresses are strings, token amounts are natural numbers (the source uses
u128 / Uint128; all arithmetic in the escrow paths is addition and exact
subtraction of amounts the ledger already validated, so no wrap-around can
occur and Nat is a faithful model), and block time is a natural number of
seconds.  The persistent key-value stores of the host are modelled as
association lists with unique keys.
-/

namespace Escrow

abbrev Addr := String

deriving instance DecidableEq for Except

/-- Modelled from the spec: the configuration record saved at
instantiation by state.rs (missing from src/): the contract owner and the
address of the external cw20 token ledger (spec.md §3 "Configuration"). -/
structure Config where
  owner : Addr
  token : Addr
deriving Repr, DecidableEq

/-- Modelled from the spec: one escrow entry as stored by state.rs
(missing from src/): the escrowed amount and the absolute maturity time
(spec.md §3 "EscrowRecord"; the property test reads these back as the
`amount` and `time` fields of `EscrowResponse`). -/
structure EscrowRecord where
  amount : Nat
  time : Nat
deriving Repr, DecidableEq

/-- Modelled from the spec: the error taxonomy of error.rs (missing from
src/), spec.md §7. -/
inductive ContractError where
  | invalidZeroAmount
  | duplicateEscrow
  | noActiveEscrow
  | escrowNotMatured
  | unauthorized
  | alreadyInitialized
deriving Repr, DecidableEq

/-- An observable event attribute set: every state-changing operation
emits the action kind ("escrow" or "redeem"), the depositor and the
amount (spec.md §6; property_tests.rs lines 137 and 181 assert the action
kind attribute). -/
structure Event where
  action : String
  depositor : Addr
  amount : Nat
deriving Repr, DecidableEq

/-- An outbound cw20 transfer instruction emitted on redemption
(spec.md §6 "Outbound"). -/
structure TransferMsg where
  recipient : Addr
  amount : Nat
deriving Repr, DecidableEq

/-- The escrow record store: a persistent map from depositor identity to
record, modelled as an association list with unique keys. -/
abbrev EscrowStore := List (Addr × EscrowRecord)

/-- Read-only lookup in the escrow record store; absence means no active
escrow (spec.md §4.2 `get`). -/
def lookupEscrow : EscrowStore → Addr → Option EscrowRecord
  | [], _ => none
  | (a, r) :: rest, d => if a = d then some r else lookupEscrow rest d

/-- Deletion in the escrow record store (spec.md §4.2 `remove`): every
entry keyed by the depositor is dropped. -/
def removeEscrow : EscrowStore → Addr → EscrowStore
  | [], _ => []
  | (a, r) :: rest, d =>
      if a = d then removeEscrow rest d else (a, r) :: removeEscrow rest d

/-- Sum of the `amount` fields over all records in the store. -/
def sumAmounts : EscrowStore → Nat
  | [] => 0
  | (_, r) :: rest => r.amount + sumAmounts rest

/-- The list of depositor keys of the store. -/
def keys : EscrowStore → List Addr
  | [] => []
  | (a, _) :: rest => a :: keys rest

/-- The instantiation message of msg.rs: it carries only the token
ledger address (property_tests.rs lines 109–111 build
`InstantiateMsg { token: usdc_addr }` and nothing else). -/
structure InstantiateMsg where
  token : Addr
deriving Repr, DecidableEq

/-- Modelled from the spec: instantiation (contract.rs `instantiate`,
missing from src/).  The owner recorded in the configuration is the
sender that instantiated the contract, the token is the address carried
by the message (spec.md §3, §4.1; property_tests.rs lines 105–125
instantiate as `owner` and assert `config.owner == owner` and
`config.token == usdc_addr`). -/
def instantiate (sender : Addr) (msg : InstantiateMsg) : Config :=
  { owner := sender, token := msg.token }

/-- Modelled from the spec: the config query (contract.rs `query`
Config branch, missing from src/): read-only, returns the stored
configuration (spec.md §4.4). -/
def queryConfig (cfg : Config) : Config := cfg

/-- Modelled from the spec: the escrow query (contract.rs `query` Escrow
branch, missing from src/): fails with NoActiveEscrow when no record
exists, never fabricating a zero or default record (spec.md §4.4). -/
def queryEscrow (es : EscrowStore) (d : Addr) :
    Except ContractError EscrowRecord :=
  match lookupEscrow es d with
  | none => .error .noActiveEscrow
  | some r => .ok r

/-- Modelled from the spec: the deposit-notification handler (contract.rs
execute Receive branch decoding the `Escrow { time }` hook, missing from
src/).  Validation in spec order (spec.md §4.3): the amount must be
nonzero (else InvalidZeroAmount), the depositor must have no active
record (else DuplicateEscrow); on success the record
`{amount, maturity = now + lock_duration}` is inserted and an "escrow"
event is emitted. -/
def handleEscrow (es : EscrowStore) (depositor : Addr) (amount : Nat)
    (lockDuration : Nat) (now : Nat) :
    Except ContractError (EscrowStore × Event) :=
  if amount = 0 then .error .invalidZeroAmount
  else
    match lookupEscrow es depositor with
    | some _ => .error .duplicateEscrow
    | none =>
        let record : EscrowRecord :=
          { amount := amount, time := now + lockDuration }
        .ok ((depositor, record) :: es,
          { action := "escrow", depositor := depositor, amount := amount })

/-- Modelled from the spec: the redemption handler (contract.rs execute
Redeem branch, missing from src/).  A record must exist for the caller
(else NoActiveEscrow) and the block time must have reached its maturity
(else EscrowNotMatured); on success the record is deleted, an outbound
transfer of the full amount back to the caller is emitted together with a
"redeem" event (spec.md §4.3 "Operation: redeem"). -/
def handleRedeem (es : EscrowStore) (caller : Addr) (now : Nat) :
    Except ContractError (EscrowStore × TransferMsg × Event) :=
  match lookupEscrow es caller with
  | none => .error .noActiveEscrow
  | some r =>
      if now < r.time then .error .escrowNotMatured
      else
        .ok (removeEscrow es caller,
          { recipient := caller, amount := r.amount },
          { action := "redeem", depositor := caller, amount := r.amount })

/-- Token ledger balances as tracked by the external cw20 contract
(the property test instantiates a cw20-base ledger and queries it with
`Cw20QueryMsg::Balance`). -/
abbrev Balances := List (Addr × Nat)

/-- Balance of an address on the ledger; an absent account holds 0. -/
def getBal : Balances → Addr → Nat
  | [], _ => 0
  | (a, n) :: rest, x => if a = x then n else getBal rest x

/-- Overwrite (or create) an account's balance. -/
def setBal : Balances → Addr → Nat → Balances
  | [], x, v => [(x, v)]
  | (a, n) :: rest, x, v =>
      if a = x then (x, v) :: rest else (a, n) :: setBal rest x v

/-- A cw20 transfer of `amount` from `src` to `dst`: fails when `src`
holds less than `amount`, otherwise debits `src` then credits `dst`
(spec.md §6 "Outbound"; the cw20 ledger is the external collaborator the
property test instantiates). -/
def transfer (bs : Balances) (src dst : Addr) (amount : Nat) :
    Option Balances :=
  if getBal bs src < amount then none
  else
    let bs1 := setBal bs src (getBal bs src - amount)
    some (setBal bs1 dst (getBal bs1 dst + amount))

/-- The combined state the property test observes: the block time, the
escrow contract's configuration, the cw20 ledger balances and the escrow
record store. -/
structure World where
  now : Nat
  cfg : Config
  balances : Balances
  escrows : EscrowStore
deriving Repr, DecidableEq

/-- The transactions the property test drives, addressed to an escrow
contract living at a fixed ledger address:
a cw20 `Send` to the contract with an attached `Escrow { time }` hook
(which moves the tokens and then runs the deposit-notification handler),
a `Redeem` execute call, and the block-time advance `update_block`
performs. -/
inductive Action where
  | deposit (depositor : Addr) (amount : Nat) (lockDuration : Nat)
  | redeem (caller : Addr)
  | advance (dt : Nat)
deriving Repr, DecidableEq

/-- One transaction against the world, `ca` being the escrow contract's
address on the ledger.  Each transaction is atomic: any failure aborts it
whole, leaving no state change (spec.md §5), which the `Option` models.
A deposit first moves the tokens on the ledger (the cw20 `Send`) and then
runs the hook handler; a redeem runs the handler and then the outbound
transfer it emits. -/
def step (ca : Addr) (w : World) : Action → Option World
  | .deposit d a l =>
      match transfer w.balances d ca a with
      | none => none
      | some bs =>
          match handleEscrow w.escrows d a l w.now with
          | .error _ => none
          | .ok (es, _) => some { w with balances := bs, escrows := es }
  | .redeem c =>
      match handleRedeem w.escrows c w.now with
      | .error _ => none
      | .ok (es, t, _) =>
          match transfer w.balances ca t.recipient t.amount with
          | none => none
          | some bs => some { w with balances := bs, escrows := es }
  | .advance dt => some { w with now := w.now + dt }

/-- Run a sequence of transactions, failing as soon as one fails. -/
def runActions (ca : Addr) (w : World) : List Action → Option World
  | [] => some w
  | act :: rest =>
      match step ca w act with
      | none => none
      | some w1 => runActions ca w1 rest

/-- A transaction never performed by the system: the escrow contract
depositing into itself.  Deposit notifications come from cw20 `Send`
calls made by token holders; the contract itself never sends its held
tokens anywhere except through redemption (spec.md §3 "Lifecycle"). -/
def actionValid (ca : Addr) : Action → Prop
  | .deposit d _ _ => d ≠ ca
  | _ => True

instance (ca : Addr) (act : Action) : Decidable (actionValid ca act) := by
  cases act <;> simp [actionValid] <;> infer_instance

/-- The world as freshly set up by the property test: block time `t0`,
the escrow contract instantiated by `owner` over the ledger `token`, the
given initial ledger balances, and no escrow records. -/
def initWorld (owner token : Addr) (bs : Balances) (t0 : Nat) : World :=
  { now := t0, cfg := instantiate owner ⟨token⟩, balances := bs,
    escrows := [] }

/-- The conservation invariant together with the well-formedness of the
record store: depositor keys are distinct (the store is a key-value map),
the contract itself is never a depositor, and the recorded amounts sum to
the contract's ledger balance. -/
def WorldInv (ca : Addr) (w : World) : Prop :=
  (keys w.escrows).Nodup ∧ lookupEscrow w.escrows ca = none ∧
    sumAmounts w.escrows = getBal w.balances ca

/-! ### Store and ledger lemmas -/

theorem lookupEscrow_eq_none_iff (es : EscrowStore) (d : Addr) :
    lookupEscrow es d = none ↔ d ∉ keys es := by
  induction es with
  | nil => simp [lookupEscrow, keys]
  | cons p rest ih =>
      obtain ⟨a, r⟩ := p
      by_cases h : a = d
      · subst h
        simp [lookupEscrow, keys]
      · simp [lookupEscrow, keys, h, ih, Ne.symm h]

theorem removeEscrow_eq_of_not_mem (es : EscrowStore) (d : Addr)
    (h : d ∉ keys es) : removeEscrow es d = es := by
  induction es with
  | nil => rfl
  | cons p rest ih =>
      obtain ⟨a, r⟩ := p
      simp only [keys, List.mem_cons, not_or] at h
      have h1 : ¬ a = d := fun hh => h.1 hh.symm
      simp [removeEscrow, h1, ih h.2]

theorem lookupEscrow_removeEscrow_self (es : EscrowStore) (d : Addr) :
    lookupEscrow (removeEscrow es d) d = none := by
  induction es with
  | nil => rfl
  | cons p rest ih =>
      obtain ⟨a, r⟩ := p
      by_cases h : a = d
      · simp [removeEscrow, h, ih]
      · simp [removeEscrow, lookupEscrow, h, ih]

theorem lookupEscrow_removeEscrow_ne (es : EscrowStore) (d d' : Addr)
    (h : d' ≠ d) : lookupEscrow (removeEscrow es d) d' = lookupEscrow es d' := by
  induction es with
  | nil => rfl
  | cons p rest ih =>
      obtain ⟨a, r⟩ := p
      by_cases ha : a = d
      · subst ha
        have h1 : ¬ a = d' := fun hh => h (hh.symm.trans rfl)
        simp [removeEscrow, lookupEscrow, h1, ih]
      · by_cases ha' : a = d'
        · have h1 : ¬ d' = d := h
          subst ha'
          simp [removeEscrow, lookupEscrow, ha, ih]
        · simp [removeEscrow, lookupEscrow, ha, ha', ih]

theorem keys_removeEscrow_sublist (es : EscrowStore) (d : Addr) :
    (keys (removeEscrow es d)).Sublist (keys es) := by
  induction es with
  | nil => simp [removeEscrow, keys]
  | cons p rest ih =>
      obtain ⟨a, r⟩ := p
      by_cases h : a = d
      · simpa [removeEscrow, keys, h] using ih.cons a
      · simpa [removeEscrow, keys, h] using ih.cons₂ a

theorem sumAmounts_removeEscrow (es : EscrowStore) (d : Addr)
    (r : EscrowRecord) (hnd : (keys es).Nodup)
    (h : lookupEscrow es d = some r) :
    sumAmounts es = r.amount + sumAmounts (removeEscrow es d) := by
  induction es with
  | nil => simp [lookupEscrow] at h
  | cons p rest ih =>
      obtain ⟨a, r0⟩ := p
      simp only [keys, List.nodup_cons] at hnd
      by_cases ha : a = d
      · subst ha
        have h0 : r0 = r := by simpa [lookupEscrow] using h
        subst h0
        simp [sumAmounts, removeEscrow,
          removeEscrow_eq_of_not_mem rest a hnd.1]
      · simp only [lookupEscrow, if_neg ha] at h
        simp only [removeEscrow, if_neg ha, sumAmounts]
        rw [ih hnd.2 h]
        ring

theorem getBal_setBal_self (bs : Balances) (x : Addr) (v : Nat) :
    getBal (setBal bs x v) x = v := by
  induction bs with
  | nil => simp [setBal, getBal]
  | cons p rest ih =>
      obtain ⟨a, n⟩ := p
      by_cases h : a = x
      · simp [setBal, getBal, h]
      · simp [setBal, getBal, h, ih]

theorem getBal_setBal_ne (bs : Balances) (x : Addr) (v : Nat) (y : Addr)
    (h : y ≠ x) : getBal (setBal bs x v) y = getBal bs y := by
  have hxy : ¬ x = y := fun hh => h hh.symm
  induction bs with
  | nil => simp [setBal, getBal, hxy]
  | cons p rest ih =>
      obtain ⟨a, n⟩ := p
      by_cases ha : a = x
      · subst ha
        simp [setBal, getBal, hxy]
      · simp [setBal, getBal, ha, ih]

theorem transfer_le (bs : Balances) (src dst : Addr) (amount : Nat)
    (bs1 : Balances) (h : transfer bs src dst amount = some bs1) :
    amount ≤ getBal bs src := by
  unfold transfer at h
  by_cases hlt : getBal bs src < amount
  · simp [hlt] at h
  · exact Nat.le_of_not_lt hlt

theorem transfer_getBal_dst (bs : Balances) (src dst : Addr) (amount : Nat)
    (bs1 : Balances) (h : transfer bs src dst amount = some bs1)
    (hne : src ≠ dst) : getBal bs1 dst = getBal bs dst + amount := by
  unfold transfer at h
  by_cases hlt : getBal bs src < amount
  · simp [hlt] at h
  · simp only [hlt, if_false, Option.some.injEq] at h
    subst h
    rw [getBal_setBal_self,
      getBal_setBal_ne bs src (getBal bs src - amount) dst (Ne.symm hne)]

theorem transfer_getBal_src (bs : Balances) (src dst : Addr) (amount : Nat)
    (bs1 : Balances) (h : transfer bs src dst amount = some bs1)
    (hne : src ≠ dst) : getBal bs1 src = getBal bs src - amount := by
  unfold transfer at h
  by_cases hlt : getBal bs src < amount
  · simp [hlt] at h
  · simp only [hlt, if_false, Option.some.injEq] at h
    subst h
    rw [getBal_setBal_ne _ _ _ _ hne, getBal_setBal_self]

theorem transfer_getBal_other (bs : Balances) (src dst : Addr)
    (amount : Nat) (bs1 : Balances)
    (h : transfer bs src dst amount = some bs1) (x : Addr)
    (hx1 : x ≠ src) (hx2 : x ≠ dst) : getBal bs1 x = getBal bs x := by
  unfold transfer at h
  by_cases hlt : getBal bs src < amount
  · simp [hlt] at h
  · simp only [hlt, if_false, Option.some.injEq] at h
    subst h
    rw [getBal_setBal_ne _ _ _ _ hx2, getBal_setBal_ne _ _ _ _ hx1]

/-! ### Handler inversion lemmas -/

theorem handleEscrow_ok (es : EscrowStore) (d : Addr) (a l now : Nat)
    (es' : EscrowStore) (ev : Event)
    (h : handleEscrow es d a l now = .ok (es', ev)) :
    a ≠ 0 ∧ lookupEscrow es d = none ∧
      es' = (d, ⟨a, now + l⟩) :: es ∧
      ev = ⟨"escrow", d, a⟩ := by
  unfold handleEscrow at h
  by_cases ha : a = 0
  · simp [ha] at h
  · rw [if_neg ha] at h
    cases hl : lookupEscrow es d with
    | some r => rw [hl] at h; exact absurd h (by simp)
    | none =>
        rw [hl] at h
        simp only [Except.ok.injEq, Prod.mk.injEq] at h
        exact ⟨ha, rfl, h.1.symm, h.2.symm⟩

theorem handleRedeem_ok (es : EscrowStore) (c : Addr) (now : Nat)
    (es' : EscrowStore) (t : TransferMsg) (ev : Event)
    (h : handleRedeem es c now = .ok (es', t, ev)) :
    ∃ r, lookupEscrow es c = some r ∧ r.time ≤ now ∧
      es' = removeEscrow es c ∧
      t = ⟨c, r.amount⟩ ∧ ev = ⟨"redeem", c, r.amount⟩ := by
  unfold handleRedeem at h
  cases hl : lookupEscrow es c with
  | none => rw [hl] at h; exact absurd h (by simp)
  | some r =>
      rw [hl] at h
      by_cases hm : now < r.time
      · simp [hm] at h
      · simp only [hm, if_false, Except.ok.injEq, Prod.mk.injEq] at h
        exact ⟨r, rfl, Nat.le_of_not_lt hm, h.1.symm, h.2.1.symm, h.2.2.symm⟩

/-! ### Invariant preservation -/

theorem step_preserves_inv (ca : Addr) (w : World) (act : Action)
    (w' : World) (hv : actionValid ca act) (hinv : WorldInv ca w)
    (h : step ca w act = some w') : WorldInv ca w' := by
  obtain ⟨hnd, hca, hsum⟩ := hinv
  cases act with
  | deposit d a l =>
      simp only [step] at h
      cases htr : transfer w.balances d ca a with
      | none => rw [htr] at h; exact absurd h (by simp)
      | some bs =>
          rw [htr] at h
          cases hesc : handleEscrow w.escrows d a l w.now with
          | error e => rw [hesc] at h; exact absurd h (by simp)
          | ok p =>
              obtain ⟨es, ev⟩ := p
              rw [hesc] at h
              simp only [Option.some.injEq] at h
              subst h
              obtain ⟨ha0, hnone, hes, _⟩ :=
                handleEscrow_ok _ _ _ _ _ _ _ hesc
              subst hes
              have hd : d ≠ ca := hv
              have hmem : d ∉ keys w.escrows :=
                (lookupEscrow_eq_none_iff _ _).1 hnone
              refine ⟨?_, ?_, ?_⟩
              · simpa [keys] using ⟨hmem, hnd⟩
              · simpa [lookupEscrow, hd] using hca
              · have hdst : getBal bs ca = getBal w.balances ca + a :=
                  transfer_getBal_dst _ _ _ _ _ htr hd
                simp only [sumAmounts]
                omega
  | redeem c =>
      simp only [step] at h
      cases hred : handleRedeem w.escrows c w.now with
      | error e => rw [hred] at h; exact absurd h (by simp)
      | ok p =>
          obtain ⟨es, t, ev⟩ := p
          rw [hred] at h
          obtain ⟨r, hl, hm, hes, ht, _⟩ := handleRedeem_ok _ _ _ _ _ _ hred
          subst hes
          subst ht
          dsimp only at h
          have hc : c ≠ ca := by
            intro hh
            rw [hh, hca] at hl
            exact absurd hl (by simp)
          cases htr : transfer w.balances ca c r.amount with
          | none => rw [htr] at h; exact absurd h (by simp)
          | some bs =>
              rw [htr] at h
              simp only [Option.some.injEq] at h
              subst h
              have hsum2 : sumAmounts w.escrows =
                  r.amount + sumAmounts (removeEscrow w.escrows c) :=
                sumAmounts_removeEscrow _ _ _ hnd hl
              refine ⟨?_, ?_, ?_⟩
              · exact hnd.sublist (keys_removeEscrow_sublist _ _)
              · rw [lookupEscrow_removeEscrow_ne _ _ _ (Ne.symm hc)]
                exact hca
              · have hsrc : getBal bs ca = getBal w.balances ca - r.amount :=
                  transfer_getBal_src _ _ _ _ _ htr (Ne.symm hc)
                dsimp only
                omega
  | advance dt =>
      simp only [step, Option.some.injEq] at h
      subst h
      exact ⟨hnd, hca, hsum⟩

theorem runActions_preserves_inv (ca : Addr) (w : World)
    (acts : List Action) (w' : World)
    (hv : ∀ a ∈ acts, actionValid ca a) (hinv : WorldInv ca w)
    (h : runActions ca w acts = some w') : WorldInv ca w' := by
  induction acts generalizing w with
  | nil =>
      simp only [runActions, Option.some.injEq] at h
      subst h
      exact hinv
  | cons act rest ih =>
      simp only [runActions] at h
      cases hst : step ca w act with
      | none => rw [hst] at h; exact absurd h (by simp)
      | some w1 =>
          rw [hst] at h
          exact ih w1 (fun a ha => hv a (List.mem_cons_of_mem _ ha))
            (step_preserves_inv ca w act w1
              (hv act (List.mem_cons_self act rest)) hinv hst) h

/-! ### Step inversion lemmas -/

theorem step_deposit_ok (ca : Addr) (w : World) (d : Addr) (a l : Nat)
    (w' : World) (h : step ca w (.deposit d a l) = some w') :
    ∃ bs, transfer w.balances d ca a = some bs ∧ a ≠ 0 ∧
      lookupEscrow w.escrows d = none ∧
      w' = { w with balances := bs, escrows := (d, ⟨a, w.now + l⟩) :: w.escrows } := by
  simp only [step] at h
  cases htr : transfer w.balances d ca a with
  | none => rw [htr] at h; exact absurd h (by simp)
  | some bs =>
      rw [htr] at h
      cases hesc : handleEscrow w.escrows d a l w.now with
      | error e => rw [hesc] at h; exact absurd h (by simp)
      | ok p =>
          obtain ⟨es, ev⟩ := p
          rw [hesc] at h
          simp only [Option.some.injEq] at h
          obtain ⟨ha0, hnone, hes, _⟩ := handleEscrow_ok _ _ _ _ _ _ _ hesc
          exact ⟨bs, rfl, ha0, hnone, by rw [← h, hes]⟩

theorem step_redeem_ok (ca : Addr) (w : World) (c : Addr) (w' : World)
    (h : step ca w (.redeem c) = some w') :
    ∃ r bs, lookupEscrow w.escrows c = some r ∧ r.time ≤ w.now ∧
      transfer w.balances ca c r.amount = some bs ∧
      w' = { w with balances := bs, escrows := removeEscrow w.escrows c } := by
  simp only [step] at h
  cases hred : handleRedeem w.escrows c w.now with
  | error e => rw [hred] at h; exact absurd h (by simp)
  | ok p =>
      obtain ⟨es, t, ev⟩ := p
      rw [hred] at h
      obtain ⟨r, hl, hm, hes, ht, _⟩ := handleRedeem_ok _ _ _ _ _ _ hred
      subst hes
      subst ht
      dsimp only at h
      cases htr : transfer w.balances ca c r.amount with
      | none => rw [htr] at h; exact absurd h (by simp)
      | some bs =>
          rw [htr] at h
          simp only [Option.some.injEq] at h
          exact ⟨r, bs, hl, hm, htr, h.symm⟩

theorem step_advance_ok (ca : Addr) (w : World) (dt : Nat) (w' : World)
    (h : step ca w (.advance dt) = some w') :
    w' = { w with now := w.now + dt } := by
  simp only [step, Option.some.injEq] at h
  exact h.symm

theorem step_preserves_cfg (ca : Addr) (w : World) (act : Action)
    (w' : World) (h : step ca w act = some w') : w'.cfg = w.cfg := by
  cases act with
  | deposit d a l =>
      obtain ⟨bs, _, _, _, hw⟩ := step_deposit_ok _ _ _ _ _ _ h
      rw [hw]
  | redeem c =>
      obtain ⟨r, bs, _, _, _, hw⟩ := step_redeem_ok _ _ _ _ h
      rw [hw]
  | advance dt => rw [step_advance_ok _ _ _ _ h]

theorem runActions_nil_ok (ca : Addr) (w w' : World)
    (h : runActions ca w [] = some w') : w' = w := by
  simpa [runActions] using h.symm

theorem runActions_cons_ok (ca : Addr) (w : World) (act : Action)
    (rest : List Action) (w' : World)
    (h : runActions ca w (act :: rest) = some w') :
    ∃ w1, step ca w act = some w1 ∧ runActions ca w1 rest = some w' := by
  simp only [runActions] at h
  cases hst : step ca w act with
  | none => rw [hst] at h; exact absurd h (by simp)
  | some w1 => rw [hst] at h; exact ⟨w1, rfl, h⟩

theorem runActions_preserves_cfg (ca : Addr) (w : World)
    (acts : List Action) (w' : World)
    (h : runActions ca w acts = some w') : w'.cfg = w.cfg := by
  induction acts generalizing w with
  | nil => rw [runActions_nil_ok _ _ _ h]
  | cons act rest ih =>
      obtain ⟨w1, hst, hrest⟩ := runActions_cons_ok _ _ _ _ _ h
      rw [ih w1 hrest, step_preserves_cfg _ _ _ _ hst]

/-! ### Claims -/

/-- C1 (Conservation): starting from the freshly instantiated contract,
after every sequence of successful deposit-notification and redeem
transactions (with arbitrary block-time advances) the sum of the `amount`
fields over all active escrow records equals the contract's token balance
as tracked by the external ledger; in particular after one deposit of
amount `A` the contract's ledger balance is `A`, and after the matching
redeem it is `0`. -/
theorem escrow_conservation :
    (∀ (owner token ca : Addr) (bs : Balances) (t0 : Nat)
        (acts : List Action) (w' : World),
      getBal bs ca = 0 → (∀ a ∈ acts, actionValid ca a) →
      runActions ca (initWorld owner token bs t0) acts = some w' →
      sumAmounts w'.escrows = getBal w'.balances ca) ∧
    (∀ (owner token ca D : Addr) (A L : Nat) (bs : Balances) (t0 : Nat)
        (w' : World),
      getBal bs ca = 0 → D ≠ ca →
      runActions ca (initWorld owner token bs t0)
        [.deposit D A L] = some w' →
      getBal w'.balances ca = A) ∧
    (∀ (owner token ca D : Addr) (A L dt : Nat) (bs : Balances)
        (t0 : Nat) (w' : World),
      getBal bs ca = 0 → D ≠ ca →
      runActions ca (initWorld owner token bs t0)
        [.deposit D A L, .advance dt, .redeem D] = some w' →
      getBal w'.balances ca = 0) := by
  refine ⟨?_, ?_, ?_⟩
  · intro owner token ca bs t0 acts w' hca hv hrun
    have hinv : WorldInv ca (initWorld owner token bs t0) := by
      refine ⟨by simp [initWorld, keys], by simp [initWorld, lookupEscrow], ?_⟩
      simp [initWorld, sumAmounts, hca]
    exact (runActions_preserves_inv ca _ acts w' hv hinv hrun).2.2
  · intro owner token ca D A L bs t0 w' hca hD hrun
    obtain ⟨w1, hst, hrest⟩ := runActions_cons_ok _ _ _ _ _ hrun
    obtain ⟨bs1, htr, hA0, hnone, hw1⟩ := step_deposit_ok _ _ _ _ _ _ hst
    have hdst := transfer_getBal_dst _ _ _ _ _ htr hD
    have hw' := runActions_nil_ok _ _ _ hrest
    subst hw'
    rw [hw1]
    dsimp only [initWorld] at hdst ⊢
    omega
  · intro owner token ca D A L dt bs t0 w' hca hD hrun
    obtain ⟨w1, hst1, hrun1⟩ := runActions_cons_ok _ _ _ _ _ hrun
    obtain ⟨w2, hst2, hrun2⟩ := runActions_cons_ok _ _ _ _ _ hrun1
    obtain ⟨w3, hst3, hrun3⟩ := runActions_cons_ok _ _ _ _ _ hrun2
    have hw' := runActions_nil_ok _ _ _ hrun3
    subst hw'
    obtain ⟨bs1, htr1, hA0, hnone, hw1⟩ := step_deposit_ok _ _ _ _ _ _ hst1
    subst hw1
    have hw2 := step_advance_ok _ _ _ _ hst2
    subst hw2
    obtain ⟨r, bs3, hlr, hmat, htr3, hw3⟩ := step_redeem_ok _ _ _ _ hst3
    have h2 : some (⟨A, t0 + L⟩ : EscrowRecord) = some r := by
      rw [← hlr]; simp [initWorld, lookupEscrow]
    have hr : r = ⟨A, t0 + L⟩ := (Option.some.inj h2).symm
    subst hr
    have hdst1 := transfer_getBal_dst _ _ _ _ _ htr1 hD
    have hsrc3 := transfer_getBal_src _ _ _ _ _ htr3 (Ne.symm hD)
    rw [hw3]
    dsimp only [initWorld] at hdst1 hsrc3 ⊢
    omega

theorem escrow_conservation_witness :
    getBal [("alice", 7)] "ctr" = 0 ∧
    sumAmounts [("alice", (⟨5, 103⟩ : EscrowRecord))] =
      getBal [("alice", 2), ("ctr", 5)] "ctr" :=
  ⟨by decide,
   escrow_conservation.1 "own" "tok" "ctr" [("alice", 7)] 100
     [.deposit "alice" 5 3]
     ⟨100, ⟨"own", "tok"⟩, [("alice", 2), ("ctr", 5)],
       [("alice", ⟨5, 103⟩)]⟩
     (by decide) (by decide) (by decide)⟩

/-- C2 (Round-trip amount): for every depositor `D`, amount `A` and lock
duration `L`, a successful deposit notification of `A` followed by a
successful redeem at or after maturity transfers exactly `A` back to the
depositor: `A` was debited at deposit time (so `A` never exceeded the
depositor's balance) and the final ledger balance of `D` equals its value
before the deposit — no fee, no truncation — while `D`'s record is
cleared. -/
theorem round_trip_amount (owner token ca D : Addr) (A L dt : Nat)
    (bs : Balances) (t0 : Nat) (w' : World) (hD : D ≠ ca)
    (hrun : runActions ca (initWorld owner token bs t0)
      [.deposit D A L, .advance dt, .redeem D] = some w') :
    A ≤ getBal bs D ∧ getBal w'.balances D = getBal bs D ∧
      lookupEscrow w'.escrows D = none := by
  obtain ⟨w1, hst1, hrun1⟩ := runActions_cons_ok _ _ _ _ _ hrun
  obtain ⟨w2, hst2, hrun2⟩ := runActions_cons_ok _ _ _ _ _ hrun1
  obtain ⟨w3, hst3, hrun3⟩ := runActions_cons_ok _ _ _ _ _ hrun2
  have hw' := runActions_nil_ok _ _ _ hrun3
  subst hw'
  obtain ⟨bs1, htr1, hA0, hnone, hw1⟩ := step_deposit_ok _ _ _ _ _ _ hst1
  subst hw1
  have hw2 := step_advance_ok _ _ _ _ hst2
  subst hw2
  obtain ⟨r, bs3, hlr, hmat, htr3, hw3⟩ := step_redeem_ok _ _ _ _ hst3
  have h2 : some (⟨A, t0 + L⟩ : EscrowRecord) = some r := by
    rw [← hlr]; simp [initWorld, lookupEscrow]
  have hr : r = ⟨A, t0 + L⟩ := (Option.some.inj h2).symm
  subst hr
  have hle := transfer_le _ _ _ _ _ htr1
  have hsrc1 := transfer_getBal_src _ _ _ _ _ htr1 hD
  have hdst3 := transfer_getBal_dst _ _ _ _ _ htr3 (Ne.symm hD)
  rw [hw3]
  dsimp only [initWorld] at hle hsrc1 hdst3 ⊢
  refine ⟨hle, by omega, ?_⟩
  simpa using lookupEscrow_removeEscrow_self _ D

theorem round_trip_amount_witness :
    5 ≤ getBal [("alice", 7)] "alice" ∧
    getBal [("alice", 7), ("ctr", 0)] "alice" =
      getBal [("alice", 7)] "alice" ∧
    lookupEscrow ([] : EscrowStore) "alice" = none :=
  round_trip_amount "own" "tok" "ctr" "alice" 5 3 3 [("alice", 7)] 100
    ⟨103, ⟨"own", "tok"⟩, [("alice", 7), ("ctr", 0)], []⟩
    (by decide) (by decide)

/-- C3 counterexample: the claim "any further deposit notification from a
depositor with an active record fails with DuplicateEscrow, with any
amount" fails at amount 0: the handler checks the amount first (spec.md
§4.3 lists the nonzero check before the duplicate check), so a zero-amount
notification from a depositor with an active record fails with
InvalidZeroAmount, not DuplicateEscrow. -/
theorem duplicate_escrow_counterexample :
    lookupEscrow [("alice", (⟨5, 10⟩ : EscrowRecord))] "alice" =
      some ⟨5, 10⟩ ∧
    handleEscrow [("alice", (⟨5, 10⟩ : EscrowRecord))] "alice" 0 7 3 ≠
      .error .duplicateEscrow ∧
    handleEscrow [("alice", (⟨5, 10⟩ : EscrowRecord))] "alice" 0 7 3 =
      .error .invalidZeroAmount := by
  refine ⟨rfl, ?_, rfl⟩
  decide

/-- C3 (No duplicate escrow, amended): for every depositor `D` with an
active record, any further deposit notification from `D` with a nonzero
amount (including one identical to the first) fails with DuplicateEscrow;
a zero-amount notification also fails, but with InvalidZeroAmount.  In
either case the transaction aborts, leaving `D`'s record and all other
state unchanged. -/
theorem duplicate_escrow_rejected (es : EscrowStore) (D : Addr)
    (r : EscrowRecord) (A L now : Nat)
    (hr : lookupEscrow es D = some r) :
    (A ≠ 0 → handleEscrow es D A L now = .error .duplicateEscrow) ∧
    (A = 0 → handleEscrow es D A L now = .error .invalidZeroAmount) := by
  constructor
  · intro hA
    simp [handleEscrow, hA, hr]
  · intro hA
    simp [handleEscrow, hA]

theorem duplicate_escrow_rejected_witness :
    handleEscrow [("alice", (⟨5, 10⟩ : EscrowRecord))] "alice" 5 7 3 =
      .error .duplicateEscrow ∧
    handleEscrow [("alice", (⟨5, 10⟩ : EscrowRecord))] "alice" 0 7 3 =
      .error .invalidZeroAmount :=
  ⟨(duplicate_escrow_rejected [("alice", ⟨5, 10⟩)] "alice" ⟨5, 10⟩ 5 7 3
      rfl).1 (by decide),
   (duplicate_escrow_rejected [("alice", ⟨5, 10⟩)] "alice" ⟨5, 10⟩ 0 7 3
      rfl).2 rfl⟩

/-- C4 (Maturity gate): for every depositor with an active record, a
redeem by that depositor at block time `now < record.maturity` fails with
EscrowNotMatured (the transaction aborts, so no state changes), and a
redeem at `now >= record.maturity` — including exactly at maturity —
succeeds, deleting the record and emitting the return transfer and the
"redeem" event. -/
theorem maturity_gate (es : EscrowStore) (c : Addr) (now : Nat)
    (r : EscrowRecord) (h : lookupEscrow es c = some r) :
    (now < r.time → handleRedeem es c now = .error .escrowNotMatured) ∧
    (r.time ≤ now → handleRedeem es c now =
      .ok (removeEscrow es c, ⟨c, r.amount⟩, ⟨"redeem", c, r.amount⟩)) := by
  constructor
  · intro hm
    simp [handleRedeem, h, hm]
  · intro hm
    simp [handleRedeem, h, Nat.not_lt.mpr hm]

theorem maturity_gate_witness :
    handleRedeem [("a", (⟨5, 10⟩ : EscrowRecord))] "a" 9 =
      .error .escrowNotMatured ∧
    handleRedeem [("a", (⟨5, 10⟩ : EscrowRecord))] "a" 10 =
      .ok ([], ⟨"a", 5⟩, ⟨"redeem", "a", 5⟩) :=
  ⟨(maturity_gate [("a", ⟨5, 10⟩)] "a" 9 ⟨5, 10⟩ rfl).1 (by decide),
   (maturity_gate [("a", ⟨5, 10⟩)] "a" 10 ⟨5, 10⟩ rfl).2 (by decide)⟩

/-- C5 (Zero rejected): a deposit notification carrying amount 0 always
fails with InvalidZeroAmount, for every store, depositor, lock duration
and block time; the transaction aborts, so no record is created and no
state changes. -/
theorem zero_amount_rejected (es : EscrowStore) (d : Addr) (l now : Nat) :
    handleEscrow es d 0 l now = .error .invalidZeroAmount := by
  simp [handleEscrow]

/-- C6 (Redeem is terminal): after a successful redeem by a depositor,
that depositor has no record any more, a subsequent redeem at any time and
the escrow query both fail with NoActiveEscrow; the query never fabricates
a record for any depositor without an active escrow; and a new nonzero
deposit notification from the depositor succeeds again, creating a fresh
record. -/
theorem redeem_terminal (es : EscrowStore) (c : Addr) (now : Nat)
    (es' : EscrowStore) (t : TransferMsg) (ev : Event)
    (h : handleRedeem es c now = .ok (es', t, ev)) :
    lookupEscrow es' c = none ∧
    (∀ now2, handleRedeem es' c now2 = .error .noActiveEscrow) ∧
    queryEscrow es' c = .error .noActiveEscrow ∧
    (∀ es2 : EscrowStore, lookupEscrow es2 c = none →
      queryEscrow es2 c = .error .noActiveEscrow) ∧
    (∀ A L now2, A ≠ 0 →
      handleEscrow es' c A L now2 =
        .ok ((c, ⟨A, now2 + L⟩) :: es', ⟨"escrow", c, A⟩)) := by
  obtain ⟨r, hl, hm, hes, ht, hev⟩ := handleRedeem_ok _ _ _ _ _ _ h
  subst hes
  have hnone : lookupEscrow (removeEscrow es c) c = none :=
    lookupEscrow_removeEscrow_self es c
  refine ⟨hnone, ?_, ?_, ?_, ?_⟩
  · intro now2
    simp [handleRedeem, hnone]
  · simp [queryEscrow, hnone]
  · intro es2 h2
    simp [queryEscrow, h2]
  · intro A L now2 hA
    simp [handleEscrow, hA, hnone]

theorem redeem_terminal_witness :
    handleRedeem ([] : EscrowStore) "a" 99 = .error .noActiveEscrow ∧
    queryEscrow ([] : EscrowStore) "a" = .error .noActiveEscrow ∧
    handleEscrow ([] : EscrowStore) "a" 4 2 50 =
      .ok ([("a", ⟨4, 52⟩)], ⟨"escrow", "a", 4⟩) :=
  ⟨(redeem_terminal [("a", ⟨5, 10⟩)] "a" 10 [] ⟨"a", 5⟩
      ⟨"redeem", "a", 5⟩ (by decide)).2.1 99,
   (redeem_terminal [("a", ⟨5, 10⟩)] "a" 10 [] ⟨"a", 5⟩
      ⟨"redeem", "a", 5⟩ (by decide)).2.2.1,
   (redeem_terminal [("a", ⟨5, 10⟩)] "a" 10 [] ⟨"a", 5⟩
      ⟨"redeem", "a", 5⟩ (by decide)).2.2.2.2 4 2 50 (by decide)⟩

/-- C7 (Maturity computation): a successful deposit notification for
depositor `d` with nonzero amount `A` and lock duration `L` at block time
`now` stores the record with amount `A` and maturity `now + L` under `d`
and emits the event with action kind "escrow", the depositor and the
amount; a subsequent escrow query for `d` returns exactly that amount and
that maturity. -/
theorem deposit_maturity_computation (es : EscrowStore) (d : Addr)
    (A L now : Nat) (hA : A ≠ 0) (hfree : lookupEscrow es d = none) :
    handleEscrow es d A L now =
      .ok ((d, ⟨A, now + L⟩) :: es, ⟨"escrow", d, A⟩) ∧
    queryEscrow ((d, ⟨A, now + L⟩) :: es) d = .ok ⟨A, now + L⟩ := by
  constructor
  · simp [handleEscrow, hA, hfree]
  · simp [queryEscrow, lookupEscrow]

theorem deposit_maturity_computation_witness :
    handleEscrow ([] : EscrowStore) "alice" 500 100 1571797419 =
      .ok ([("alice", ⟨500, 1571797519⟩)], ⟨"escrow", "alice", 500⟩) ∧
    queryEscrow [("alice", (⟨500, 1571797519⟩ : EscrowRecord))] "alice" =
      .ok ⟨500, 1571797519⟩ :=
  deposit_maturity_computation [] "alice" 500 100 1571797419
    (by decide) rfl

/-- C8 (Authorization): redeem operates only on the caller's own record —
a caller without an active record always gets NoActiveEscrow (whatever
records, mature or not, other depositors hold; the failed transaction
aborts and changes nothing), and a successful redeem transfers to the
caller itself and leaves every other depositor's record unchanged; there
is no administrator override and no third-party redemption path. -/
theorem redeem_authorization (es : EscrowStore) (c : Addr) (now : Nat) :
    (lookupEscrow es c = none →
      handleRedeem es c now = .error .noActiveEscrow) ∧
    (∀ es' t ev, handleRedeem es c now = .ok (es', t, ev) →
      t.recipient = c ∧
      ∀ d, d ≠ c → lookupEscrow es' d = lookupEscrow es d) := by
  constructor
  · intro h
    simp [handleRedeem, h]
  · intro es' t ev h
    obtain ⟨r, hl, hm, hes, ht, hev⟩ := handleRedeem_ok _ _ _ _ _ _ h
    subst hes
    subst ht
    exact ⟨rfl, fun d hd => lookupEscrow_removeEscrow_ne es c d hd⟩

theorem redeem_authorization_witness :
    handleRedeem [("bob", (⟨7, 0⟩ : EscrowRecord))] "alice" 50 =
      .error .noActiveEscrow ∧
    lookupEscrow [("bob", (⟨7, 0⟩ : EscrowRecord))] "bob" =
      lookupEscrow [("alice", (⟨5, 0⟩ : EscrowRecord)), ("bob", ⟨7, 0⟩)]
        "bob" :=
  ⟨(redeem_authorization [("bob", ⟨7, 0⟩)] "alice" 50).1 rfl,
   ((redeem_authorization [("alice", ⟨5, 0⟩), ("bob", ⟨7, 0⟩)] "alice"
       50).2 [("bob", ⟨7, 0⟩)] ⟨"alice", 5⟩ ⟨"redeem", "alice", 5⟩
       (by decide)).2 "bob" (by decide)⟩

/-- The depositors a transaction does not own: a deposit touches only its
depositor's record and a redeem only its caller's. -/
def otherParty : Action → Addr → Prop
  | .deposit d _ _, x => x ≠ d
  | .redeem c, x => x ≠ c
  | .advance _, _ => True

instance (act : Action) (x : Addr) : Decidable (otherParty act x) := by
  cases act <;> simp [otherParty] <;> infer_instance

/-- C9 (Frame): every transaction touches at most one depositor's record:
the configuration is never mutated, the records of every depositor other
than the one the transaction concerns are unchanged, and no record is
ever modified in place — a depositor whose record survives a transaction
keeps it verbatim. -/
theorem frame_property (ca : Addr) (w : World) (act : Action) (w' : World)
    (h : step ca w act = some w') :
    w'.cfg = w.cfg ∧
    (∀ d, otherParty act d →
      lookupEscrow w'.escrows d = lookupEscrow w.escrows d) ∧
    (∀ d r r', lookupEscrow w.escrows d = some r →
      lookupEscrow w'.escrows d = some r' → r' = r) := by
  refine ⟨step_preserves_cfg _ _ _ _ h, ?_, ?_⟩ <;> cases act
  case _ dep a l =>
      obtain ⟨bs, htr, hA, hnone, hw⟩ := step_deposit_ok _ _ _ _ _ _ h
      subst hw
      intro d hd
      have hd2 : ¬ dep = d := fun hh => hd hh.symm
      simp [lookupEscrow, hd2]
  case _ c =>
      obtain ⟨r, bs, hl, hm, htr, hw⟩ := step_redeem_ok _ _ _ _ h
      subst hw
      intro d hd
      exact lookupEscrow_removeEscrow_ne w.escrows c d hd
  case _ dt =>
      rw [step_advance_ok _ _ _ _ h]
      intro d hd
      rfl
  case _ dep a l =>
      obtain ⟨bs, htr, hA, hnone, hw⟩ := step_deposit_ok _ _ _ _ _ _ h
      subst hw
      intro d r r' hr hr'
      by_cases hd : dep = d
      · subst hd
        rw [hnone] at hr
        exact absurd hr (by simp)
      · have h2 : lookupEscrow w.escrows d = some r' := by
          simpa [lookupEscrow, hd] using hr'
        rw [hr] at h2
        exact (Option.some.inj h2).symm
  case _ c =>
      obtain ⟨r0, bs, hl, hm, htr, hw⟩ := step_redeem_ok _ _ _ _ h
      subst hw
      intro d r r' hr hr'
      by_cases hd : d = c
      · subst hd
        rw [lookupEscrow_removeEscrow_self] at hr'
        exact absurd hr' (by simp)
      · rw [lookupEscrow_removeEscrow_ne _ _ _ hd, hr] at hr'
        exact (Option.some.inj hr').symm
  case _ dt =>
      rw [step_advance_ok _ _ _ _ h]
      intro d r r' hr hr'
      rw [hr] at hr'
      exact (Option.some.inj hr').symm

theorem frame_property_witness :
    (⟨100, ⟨"o", "t"⟩, [("alice", 2), ("ctr", 5)],
        [("alice", ⟨5, 103⟩), ("bob", ⟨3, 40⟩)]⟩ : World).cfg =
      (⟨100, ⟨"o", "t"⟩, [("alice", 7)],
        [("bob", ⟨3, 40⟩)]⟩ : World).cfg ∧
    lookupEscrow [("alice", (⟨5, 103⟩ : EscrowRecord)),
        ("bob", ⟨3, 40⟩)] "bob" =
      lookupEscrow [("bob", (⟨3, 40⟩ : EscrowRecord))] "bob" :=
  ⟨(frame_property "ctr" ⟨100, ⟨"o", "t"⟩, [("alice", 7)],
      [("bob", ⟨3, 40⟩)]⟩ (.deposit "alice" 5 3)
      ⟨100, ⟨"o", "t"⟩, [("alice", 2), ("ctr", 5)],
        [("alice", ⟨5, 103⟩), ("bob", ⟨3, 40⟩)]⟩ (by decide)).1,
   (frame_property "ctr" ⟨100, ⟨"o", "t"⟩, [("alice", 7)],
      [("bob", ⟨3, 40⟩)]⟩ (.deposit "alice" 5 3)
      ⟨100, ⟨"o", "t"⟩, [("alice", 2), ("ctr", 5)],
        [("alice", ⟨5, 103⟩), ("bob", ⟨3, 40⟩)]⟩ (by decide)).2.1
     "bob" (by decide)⟩

/-- C10 (Instantiation): the instantiation message carries only the token
ledger address (`InstantiateMsg` has a single field); the configuration's
owner is the sender that instantiated the contract, and after any
successful sequence of transactions the config query still returns
exactly that sender as owner and the message's address as token. -/
theorem instantiate_owner_token (sender : Addr) (msg : InstantiateMsg)
    (ca : Addr) (bs : Balances) (t0 : Nat) (acts : List Action)
    (w' : World)
    (hrun : runActions ca
      ⟨t0, instantiate sender msg, bs, []⟩ acts = some w') :
    queryConfig w'.cfg = { owner := sender, token := msg.token } := by
  rw [queryConfig, runActions_preserves_cfg _ _ _ _ hrun]
  rfl

theorem instantiate_owner_token_witness :
    queryConfig (⟨100, ⟨"own", "usdc"⟩, [], []⟩ : World).cfg =
      { owner := "own", token := "usdc" } :=
  instantiate_owner_token "own" ⟨"usdc"⟩ "ctr" [] 100 []
    ⟨100, ⟨"own", "usdc"⟩, [], []⟩ rfl

end Escrow
